import Mathlib

/-!
Verification development for the `lsdy` DynamoDB query tool.

The definitions below are a shallow embedding of the program's core:
the paginated retrieval loop with retry/backoff (`query` / `ScanItems`),
the key-spec codec (`GetItems` and the `--pk`/`--sk` validation in `run`),
the retrieval orchestration over multiple key pairs, the column-schema
projection, the row transformation/filter pipeline, and the deletion
correlator.  Remote collaborators (the DynamoDB client, the base64
decoder, the regexp engine) are modelled as explicit function parameters;
Go strings are modelled as Lean `String` (byte/char distinction is
immaterial for the properties below, which use ASCII data).  Go panics
(out-of-range indexing, `regexp.MustCompile` failure) are modelled by
returning `none`.
-/

/-- An AWS-SDK-style error as classified by `query`/`ScanItems`:
whether the Go error value implements `awserr.Error`, and its code. -/
structure DyErr where
  isAwsErr : Bool
  code : String
deriving DecidableEq, Repr

/-- The value of `dynamodb.ErrCodeProvisionedThroughputExceededException`. -/
def errCodeProvisionedThroughputExceeded : String :=
  "ProvisionedThroughputExceededException"

/-- The error classification inside the retriable closure of
`query`/`ScanItems`: only an `awserr.Error` whose code is the
provisioned-throughput-exceeded code is returned to `backoff.Retry`
(causing a retry); every other error makes the closure return nil. -/
def isRetryable (e : DyErr) : Bool :=
  e.isAwsErr && (e.code == errCodeProvisionedThroughputExceeded)

/-- One page of results from the remote service (`QueryOutput`/`ScanOutput`):
the items and the optional continuation token (`LastEvaluatedKey`).
Continuation tokens are abstracted as natural numbers. -/
structure PageResp (α : Type) where
  items : List α
  lastEvaluatedKey : Option Nat
deriving Repr

/-- `backoff.Retry` applied to the retriable closure of `query`/`ScanItems`.
`att n` is the outcome the remote call would produce on the n-th attempt;
`fuel` bounds the retries the exponential-backoff policy grants before it
gives up (`NewExponentialBackOff` stops after its max elapsed time).
Returns `(backoff-gave-up error, last attempt's captured rerr/res, number
of attempts executed)`: the closure stores the raw error in `rerr` and
returns it to `backoff.Retry` only when it is retryable. -/
def retryLoop {α : Type} (att : Nat → Except DyErr (PageResp α)) :
    Nat → Nat → Option DyErr × Except DyErr (PageResp α) × Nat
  | fuel, n =>
    match att n with
    | .ok r => (none, .ok r, 1)
    | .error e =>
      if isRetryable e then
        match fuel with
        | 0 => (some e, .error e, 1)
        | fuel' + 1 =>
          let r := retryLoop att fuel' (n + 1)
          (r.1, r.2.1, r.2.2 + 1)
      else (none, .error e, 1)

/-- Errors of `query`/`ScanItems`.  `retryExhausted` models
`"query failed after %v: %w"` / `"ScanItems failed after %v: %w"`
(the wrap applied when `backoff.Retry` itself returns an error, which
carries the elapsed time `time.Since(start)`); `requestFailed` models
`"query failed: %w"` / `"ScanItems failed: %w"` (the wrap applied to a
non-retryable error, which carries no elapsed time). -/
inductive QueryErr where
  | retryExhausted (cause : DyErr)
  | requestFailed (cause : DyErr)
deriving DecidableEq, Repr

/-- Whether the error message format of a `QueryErr` includes the
elapsed-time context (`after %v`). -/
def QueryErr.hasElapsedContext : QueryErr → Bool
  | .retryExhausted _ => true
  | .requestFailed _ => false

/-- The pagination loop shared by `query` and `ScanItems` (the two differ
only in the prefix of their error messages): fetch one page through
`backoff.Retry`, abort on failure, append the items, and continue while a
`LastEvaluatedKey` is present, feeding it into the next request.
`svc k a` is the remote outcome for a request with `ExclusiveStartKey` `k`
on attempt `a`; `pageFuel` bounds the number of loop iterations (`none`
means the bound was hit, which cannot occur for the finite services used
below).  The accumulator is `ret`; the first request carries no start key. -/
def pagedFetchGo {α : Type} (svc : Option Nat → Nat → Except DyErr (PageResp α))
    (retryFuel : Nat) : Nat → Option Nat → List α → Option (Except QueryErr (List α))
  | 0, _, _ => none
  | pageFuel + 1, lastKey, acc =>
    match retryLoop (svc lastKey) retryFuel 0 with
    | (some e, _, _) => some (.error (.retryExhausted e))
    | (none, .error rerr, _) => some (.error (.requestFailed rerr))
    | (none, .ok res, _) =>
      match res.lastEvaluatedKey with
      | none => some (.ok (acc ++ res.items))
      | some k => pagedFetchGo svc retryFuel pageFuel (some k) (acc ++ res.items)

/-- `query`/`ScanItems` without a limit: run the pagination loop from an
empty accumulator and no start key. -/
def pagedFetch {α : Type} (svc : Option Nat → Nat → Except DyErr (PageResp α))
    (retryFuel pageFuel : Nat) : Option (Except QueryErr (List α)) :=
  pagedFetchGo svc retryFuel pageFuel none []

/-- A remote service holding the record sequence split across the given
pages: a request with no start key serves page 0, a request with start key
`j` serves page `j`, and the response carries continuation token `j + 1`
exactly when another page exists.  Every attempt succeeds. -/
def svcOfPages {α : Type} (pages : List (List α)) :
    Option Nat → Nat → Except DyErr (PageResp α) :=
  fun k _ =>
    let j := k.getD 0
    .ok ⟨pages.getD j [], if j + 1 < pages.length then some (j + 1) else none⟩

/-- Like `svcOfPages`, except that the request for page `fj` fails with
error `e` on every attempt. -/
def svcFailAt {α : Type} (pages : List (List α)) (fj : Nat) (e : DyErr) :
    Option Nat → Nat → Except DyErr (PageResp α) :=
  fun k a => if k.getD 0 = fj then .error e else svcOfPages pages k a

/-- A throttling error: an `awserr.Error` carrying the
provisioned-throughput-exceeded code. -/
def throttleErr : DyErr :=
  ⟨true, errCodeProvisionedThroughputExceeded⟩

/-- A non-throttling remote error (e.g. a permission failure). -/
def accessDeniedErr : DyErr :=
  ⟨true, "AccessDeniedException"⟩

/-- A service that fails every request with a non-throttling error. -/
def svcDenied : Option Nat → Nat → Except DyErr (PageResp Nat) :=
  fun _ _ => .error accessDeniedErr

/-- A service that fails every request with the throttling error. -/
def svcThrottle : Option Nat → Nat → Except DyErr (PageResp Nat) :=
  fun _ _ => .error throttleErr

/-- `strings.Split` for a one-character separator, on the character list of
the string (splitting at every occurrence, as Go's `strings.Split` does). -/
def splitCharList (c : Char) : List Char → List (List Char)
  | [] => [[]]
  | x :: xs =>
    match splitCharList c xs with
    | [] => [[]]
    | h :: t => if x = c then [] :: h :: t else (x :: h) :: t

/-- `strings.Split(s, c)` for the one-character separators the program
uses (`":"` in the key codec and rule parsing). -/
def goSplit (s : String) (c : Char) : List String :=
  (splitCharList c s.toList).map String.mk

/-- `strings.Contains(s, pat)`: `pat` occurs contiguously in `s`. -/
def strContains (s pat : String) : Bool :=
  decide (pat.toList <:+: s.toList)

/-- `s[:n]` (Go slice prefix; the program only slices display cells,
which the properties below treat as ASCII). -/
def strTake (s : String) (n : Nat) : String :=
  String.mk (s.toList.take n)

/-- `s[n:]` (Go slice suffix, used for the pattern after a leading caret). -/
def strDrop (s : String) (n : Nat) : String :=
  String.mk (s.toList.drop n)

/-- Decimal digit value of a character, if it is a digit. -/
def digitVal (c : Char) : Option Nat :=
  if '0' ≤ c ∧ c ≤ '9' then some (c.toNat - 48) else none

/-- Accumulate decimal digits; fails on the first non-digit. -/
def parseDigitsGo : List Char → Nat → Option Nat
  | [], acc => some acc
  | c :: cs, acc =>
    match digitVal c with
    | some d => parseDigitsGo cs (acc * 10 + d)
    | none => none

/-- `strconv.Atoi` with the error ignored, as the rule parsers do
(`idx, _ := strconv.Atoi(...)`): an optional sign followed by decimal
digits; any parse failure yields 0. -/
def goAtoi (s : String) : Int :=
  match s.toList with
  | [] => 0
  | '-' :: cs =>
    match (match cs with | [] => none | _ => parseDigitsGo cs 0) with
    | some n => -(n : Int)
    | none => 0
  | '+' :: cs =>
    match (match cs with | [] => none | _ => parseDigitsGo cs 0) with
    | some n => (n : Int)
    | none => 0
  | cs =>
    match parseDigitsGo cs 0 with
    | some n => (n : Int)
    | none => 0

/-- `strings.Replace(s, "\x22", "\x27", -1)`: every double quote becomes a
single quote before a row is handed to the CSV writer. -/
def quoteNormalize (s : String) : String :=
  String.mk (s.toList.map (fun c => if c = Char.ofNat 34 then Char.ofNat 39 else c))

/-- The truncation step at src/main.go:315-317:
`if len(row) > maxlen { row = row[:maxlen] }`. -/
def truncateGo (row : String) (maxlen : Nat) : String :=
  if maxlen < row.length then strTake row maxlen else row

/-- The key codec of `GetItems` (src lines 484-485): `strings.Split` on
`":"`, taking element 0 as the attribute name and element 1 as the value. -/
def splitKeySpec (s : String) : String × String :=
  ((goSplit s ':').getD 0 "", (goSplit s ':').getD 1 "")

/-- The `--pk`/`--sk` validation loop in `run` (src lines 74-95): every
non-empty spec must contain `":"`, and the label is element 0 of the
split (the Go code uses the message `"invalid --pk format: %v"` /
`"invalid --sk format: %v"`). -/
def validateKeySpecs : List String → String → Except String String
  | [], lbl => .ok lbl
  | v :: rest, lbl =>
    if v ≠ "" then
      if !(strContains v ":") then .error ("invalid format: " ++ v)
      else validateKeySpecs rest ((goSplit v ':').getD 0 "")
    else validateKeySpecs rest lbl

/-- The `dynamodb.QueryInput` built by `GetItems` (src lines 486-507):
key-condition equality on the primary key, an optional
`begins_with(sortName, sortValue)` condition, and
`ScanIndexForward = false` (descending). -/
structure QueryInputM where
  table : String
  pkName : String
  pkValue : String
  sortCond : Option (String × String)
  scanIndexForward : Bool
deriving DecidableEq, Repr

/-- `GetItems`' input construction (src lines 483-507): the sort
condition is added exactly when the sk spec string is non-empty. -/
def getItemsInput (table pk sk : String) : QueryInputM :=
  if sk ≠ "" then
    ⟨table, (goSplit pk ':').getD 0 "", (goSplit pk ':').getD 1 "",
      some ((goSplit sk ':').getD 0 "", (goSplit sk ':').getD 1 ""), false⟩
  else
    ⟨table, (goSplit pk ':').getD 0 "", (goSplit pk ':').getD 1 "", none, false⟩

/-- The sk spec paired with pk spec `i` in `run` (src lines 164-169):
`vv` stays empty unless `len(sk) > 0 && i <= len(sk)-1`. -/
def pairedSk (sks : List String) (i : Nat) : String :=
  if 0 < sks.length then (if i + 1 ≤ sks.length then sks.getD i "" else "") else ""

/-- The per-key-pair retrieval loop of `run` (src lines 163-184):
call `GetItems` for each pk spec with its paired sk spec, abort on error,
and append the results to `items` in input order.  `g` abstracts the
`GetItems` call. -/
def runRetrieveGo {β : Type} (g : String → String → Except QueryErr (List β))
    (sks : List String) : List String → Nat → List β → Except QueryErr (List β)
  | [], _, items => .ok items
  | v :: rest, i, items =>
    match g v (pairedSk sks i) with
    | .error e => .error e
    | .ok tmp => runRetrieveGo g sks rest (i + 1) (items ++ tmp)

/-- Retrieval across all pk specs, starting from an empty accumulator. -/
def runRetrieveL {β : Type} (g : String → String → Except QueryErr (List β))
    (pks sks : List String) : Except QueryErr (List β) :=
  runRetrieveGo g sks pks 0 []

/-- `outs i ++ outs (i+1) ++ ... ++ outs (i+n-1)`: the concatenation of
per-key results in input order. -/
def joinOuts {β : Type} (outs : Nat → List β) : Nat → Nat → List β
  | _, 0 => []
  | i, n + 1 => outs i ++ joinOuts outs (i + 1) n

/-- Modelled from the spec: the limit-honoring pager used by the `libdy`
`GetItems`/`ScanItems` overloads that `run` calls with a positive
`--limit` (src lines 173 and 187); the limit-taking implementation lives
in the external `libdy` package and is not part of this repository's
sources.  Spec contract: loop as the unlimited pager does, but stop —
issuing no further page request — as soon as the accumulator has reached
`limit` records, and return exactly the first `limit` records; the
returned counter is the number of page requests issued. -/
def pagedFetchLimitGo {α : Type} (svc : Option Nat → Nat → Except DyErr (PageResp α))
    (retryFuel limit : Nat) :
    Nat → Option Nat → List α → Nat → Option (Except QueryErr (List α × Nat))
  | 0, _, _, _ => none
  | pageFuel + 1, lastKey, acc, cnt =>
    match retryLoop (svc lastKey) retryFuel 0 with
    | (some e, _, _) => some (.error (.retryExhausted e))
    | (none, .error rerr, _) => some (.error (.requestFailed rerr))
    | (none, .ok res, _) =>
      let acc2 := acc ++ res.items
      if limit ≤ acc2.length then some (.ok (acc2.take limit, cnt + 1))
      else
        match res.lastEvaluatedKey with
        | none => some (.ok (acc2, cnt + 1))
        | some k => pagedFetchLimitGo svc retryFuel limit pageFuel (some k) acc2 (cnt + 1)

/-- The limit-honoring fetch from an empty accumulator. -/
def pagedFetchLimit {α : Type} (svc : Option Nat → Nat → Except DyErr (PageResp α))
    (retryFuel limit pageFuel : Nat) : Option (Except QueryErr (List α × Nat)) :=
  pagedFetchLimitGo svc retryFuel limit pageFuel none [] 0

/-- A retrieved record after `UnmarshalListOfMaps` and cell
stringification: attribute name to the `fmt.Sprintf` rendering of its
value (the stringification of dynamic attribute values is external to the
properties below). -/
abbrev DyRecord : Type := List (String × String)

/-- The label union of `run` (src lines 207-212): collect every attribute
name seen across the records.  Go iterates a `map[string]struct\x7b\x7d`,
whose order is unspecified; the union is modelled in first-seen order,
and no property below depends on this order. -/
def unionLabels (m : List DyRecord) : List String :=
  m.foldl (fun acc maps =>
    maps.foldl (fun a kv => if a.contains kv.1 then a else a ++ [kv.1]) acc) []

/-- Lexicographic less-or-equal on character lists (the order
`sort.Strings` uses, byte-wise; identical on ASCII data). -/
def leCharList : List Char → List Char → Bool
  | [], _ => true
  | _ :: _, [] => false
  | x :: xs, y :: ys => if x = y then leCharList xs ys else decide (x < y)

/-- Lexicographic less-or-equal on strings. -/
def strLe (a b : String) : Bool :=
  leCharList a.toList b.toList

/-- Insertion into an ascending list, for `sort.Strings`. -/
def insertSorted (s : String) : List String → List String
  | [] => [s]
  | x :: xs => if strLe s x then s :: x :: xs else x :: insertSorted s xs

/-- `sort.Strings`: ascending lexicographic sort. -/
def sortStrings (l : List String) : List String :=
  l.foldr insertSorted []

/-- The column-schema projection of `run` (src lines 202-220): use the
explicit `--attr` list when non-empty, else the derived union; then sort
unless `--nosort` is set.  Note the sort applies to `sortedlbl` in both
cases. -/
def project (m : List DyRecord) (incols : List String) (nosort : Bool) : List String :=
  let lbl := if 0 < incols.length then [] else unionLabels m
  let sortedlbl := (if 0 < incols.length then incols else []) ++ lbl
  if !nosort then sortStrings sortedlbl else sortedlbl

/-- Whether `p` begins the list `l`, character by character. -/
def beginsWithList : List Char → List Char → Bool
  | [], _ => true
  | _ :: _, [] => false
  | p :: ps, x :: xs => if p = x then beginsWithList ps xs else false

/-- `strings.Split` over character lists for a non-empty separator:
cut at every occurrence of `sep`, accumulating the current segment in
reverse.  `fuel` bounds the scan (the input's length suffices, since each
step consumes at least one character). -/
def splitSepGo (sep : List Char) : Nat → List Char → List Char → List (List Char)
  | _, [], cur => [cur.reverse]
  | 0, l, cur => [cur.reverse ++ l]
  | fuel + 1, x :: xs, cur =>
    if sep ≠ [] ∧ beginsWithList sep (x :: xs) then
      cur.reverse :: splitSepGo sep fuel ((x :: xs).drop sep.length) []
    else splitSepGo sep fuel xs (x :: cur)

/-- `strings.Split(s, sep)` for the arbitrary separator of a `--decb64`
segment rule (Go's behavior for a non-empty separator; the degenerate
empty separator, which Go splits into single characters, is mapped to the
whole string and is exercised by no property below). -/
def goSplitStr (s sep : String) : List String :=
  if sep = "" then [s]
  else (splitSepGo sep.toList s.toList.length s.toList []).map String.mk

/-- One `--decb64` rule applied to the cell of column `i`
(src lines 255-280).  `decode` abstracts `base64.StdEncoding.DecodeString`
(`none` = decode error, in which case the cell is left unchanged).  The
segment separator `sp[1]` is split with Go `strings.Split` semantics; a
negative segment index passing the `sidx < len(sr)` guard indexes out of
range in Go (a panic), modelled as `none`. -/
def applyB64Rule (decode : String → Option String) (decv : String) (i : Nat)
    (row : String) : Option String :=
  let sp := goSplit decv ':'
  if sp.length = 1 then
    if goAtoi (sp.getD 0 "") = (i : Int) then
      match decode row with
      | some data => some data
      | none => some row
    else some row
  else if sp.length = 3 then
    if goAtoi (sp.getD 0 "") = (i : Int) then
      let sidx := goAtoi (sp.getD 2 "")
      let sr := goSplitStr row (sp.getD 1 "")
      if 1 < sr.length ∧ sidx < (sr.length : Int) then
        if sidx < 0 then none
        else
          match decode (sr.getD sidx.toNat "") with
          | some data => some (String.intercalate (sp.getD 1 "") (sr.set sidx.toNat data))
          | none => some row
      else some row
    else some row
  else some row

/-- All `--decb64` rules applied in declaration order. -/
def applyB64All (decode : String → Option String) (rules : List String) (i : Nat)
    (row : String) : Option String :=
  rules.foldl (fun acc r => acc.bind (applyB64Rule decode r i)) (some row)

/-- One `--contains` filter rule applied to the cell of column `i`
(src lines 282-311).  `compile` abstracts `regexp.Compile` (`none` = the
pattern does not compile, on which `regexp.MustCompile` panics — modelled
as `none`); `cc[1][0]` on an empty pattern is likewise a Go panic. -/
def applyFilter (compile : String → Option (String → Bool)) (fltr : String)
    (i : Nat) (row : String) (inc : Bool) : Option Bool :=
  let cc := goSplit fltr ':'
  if cc.length = 2 then
    if goAtoi (cc.getD 0 "") = (i : Int) then
      let pat := cc.getD 1 ""
      if pat = "" then none
      else if pat.front = '^' then
        if strContains row (strDrop pat 1) then some false else some inc
      else some (strContains row pat)
    else some inc
  else if cc.length = 3 then
    if goAtoi (cc.getD 0 "") = (i : Int) then
      match compile (cc.getD 2 "") with
      | none => none
      | some re =>
        let mtch := re row
        if cc.getD 1 "" = "^regex" then some (!mtch)
        else if cc.getD 1 "" = "regex" then some mtch
        else some inc
    else some inc
  else some inc

/-- All `--contains` filter rules applied in declaration order, threading
the row-level `include` flag. -/
def applyFilterAll (compile : String → Option (String → Bool)) (rules : List String)
    (i : Nat) (row : String) (inc : Bool) : Option Bool :=
  rules.foldl (fun acc r => acc.bind (applyFilter compile r i row)) (some inc)

/-- The per-row cell loop of `run` (src lines 243-321): for each schema
column in order, a missing attribute yields `"-"` for both forms and
skips transforms and filters; a present attribute is transformed by the
base64 rules, filtered (updating the row-level include flag), appended
untruncated to `rows`, and appended truncated and quote-normalized to
`qrows`. -/
def renderRowGo (decode : String → Option String)
    (compile : String → Option (String → Bool)) (maps : DyRecord)
    (b64dec conts : List String) (maxlen : Nat) :
    List String → Nat → Bool → List String → List String →
    Option (List String × List String × Bool)
  | [], _, inc, rows, qrows => some (rows, qrows, inc)
  | k :: ks, i, inc, rows, qrows =>
    match maps.lookup k with
    | none => renderRowGo decode compile maps b64dec conts maxlen ks (i + 1) inc
        (rows ++ ["-"]) (qrows ++ ["-"])
    | some v =>
      match applyB64All decode b64dec i v with
      | none => none
      | some row =>
        match applyFilterAll compile conts i row inc with
        | none => none
        | some inc2 =>
          renderRowGo decode compile maps b64dec conts maxlen ks (i + 1) inc2
            (rows ++ [row]) (qrows ++ [quoteNormalize (truncateGo row maxlen)])

/-- One row through the transformer: all schema columns from column 0,
include flag initially true, empty accumulators. -/
def renderRow (decode : String → Option String)
    (compile : String → Option (String → Bool)) (maps : DyRecord)
    (schema : List String) (b64dec conts : List String) (maxlen : Nat) :
    Option (List String × List String × Bool) :=
  renderRowGo decode compile maps b64dec conts maxlen schema 0 true [] []

/-- A `--decb64` rule that cannot make the cell loop panic: three-segment
rules must carry a non-negative segment index. -/
def b64RuleSafe (decv : String) : Bool :=
  let sp := goSplit decv ':'
  if sp.length = 3 then decide (0 ≤ goAtoi (sp.getD 2 "")) else true

/-- A `--contains` rule that cannot make the cell loop panic under the
given regexp engine: two-segment rules must carry a non-empty pattern,
three-segment rules a pattern the engine compiles. -/
def filterRuleSafe (compile : String → Option (String → Bool)) (fltr : String) : Bool :=
  let cc := goSplit fltr ':'
  if cc.length = 2 then decide (cc.getD 1 "" ≠ "")
  else if cc.length = 3 then (compile (cc.getD 2 "")).isSome
  else true

/-- A base64 decoder that rejects every input (decode failures are
silently ignored by the rules). -/
def noDecode : String → Option String := fun _ => none

/-- A regexp engine behaving as `regexp.Compile` does on patterns it
rejects (e.g. the unclosed group `"("`): compilation fails, on which
`regexp.MustCompile` panics. -/
def rejectAllRegexEngine : String → Option (String → Bool) := fun _ => none

/-- The key-label resolution from `DescribeTable` metadata in `run`
(src lines 145-153): each `KeySchema` element overwrites the label of its
key type (`HASH` → primary, `RANGE` → sort), starting from the labels
taken from the user's `--pk`/`--sk` flags. -/
def resolveKeyLabels (keySchema : List (String × String)) (pklbl0 sklbl0 : String) :
    String × String :=
  keySchema.foldl (fun ls v =>
    (if v.2 = "HASH" then v.1 else ls.1, if v.2 = "RANGE" then v.1 else ls.2))
    (pklbl0, sklbl0)

/-- `fmt.Sprintf` of a map access that may miss: a missing key in a
`map[string]interface\x7b\x7d` yields the nil interface, printed as
`"<nil>"`. -/
def fmtVal (o : Option String) : String := o.getD "<nil>"

/-- The `todel` map update (src line 335): Go map assignment, i.e. an
overwrite-on-collision insert keyed by the sort-key value. -/
def insertTodel (todel : List (String × String)) (k v : String) :
    List (String × String) :=
  if (todel.lookup k).isSome then
    todel.map (fun p => if p.1 = k then (k, v) else p)
  else todel ++ [(k, v)]

/-- The outputs of the row loop of `run` (src lines 242-338): the rows
appended to the table writer, the rows written to the CSV writer, and the
`todel` mapping (sort-key value to primary-key value). -/
structure RunOut where
  tableRows : List (List String)
  csvRows : List (List String)
  todel : List (String × String)
deriving DecidableEq, Repr

/-- The row loop of `run` (src lines 242-338): render each record; a row
whose include flag is false is skipped entirely (`continue`); an included
row is appended to the table and CSV outputs and, when deletion is
requested and the record carries the sort-key attribute, recorded in
`todel`. -/
def processRows (decode : String → Option String)
    (compile : String → Option (String → Bool)) (schema b64dec conts : List String)
    (maxlen : Nat) (del : Bool) (pklbl sklbl : String) :
    List DyRecord → RunOut → Option RunOut
  | [], st => some st
  | maps :: rest, st =>
    match renderRow decode compile maps schema b64dec conts maxlen with
    | none => none
    | some (rows, qrows, inc) =>
      if inc then
        let td :=
          if del then
            match maps.lookup sklbl with
            | some skv => insertTodel st.todel skv (fmtVal (maps.lookup pklbl))
            | none => st.todel
          else st.todel
        processRows decode compile schema b64dec conts maxlen del pklbl sklbl rest
          ⟨st.tableRows ++ [rows], st.csvRows ++ [qrows], td⟩
      else
        processRows decode compile schema b64dec conts maxlen del pklbl sklbl rest st

/-- The delete issued for one `todel` entry (src line 346):
`DeleteItem(svc, table, pklbl+":"+v, sklbl+":"+k)`. -/
def mkDeleteReq (table pklbl sklbl : String) (kv : String × String) :
    String × String × String :=
  (table, pklbl ++ ":" ++ kv.2, sklbl ++ ":" ++ kv.1)

/-- The deletes issued by the deletion loop (src lines 344-353): one per
`todel` entry. -/
def issuedDeletes (table pklbl sklbl : String) (todel : List (String × String)) :
    List (String × String × String) :=
  todel.map (mkDeleteReq table pklbl sklbl)

theorem retryLoop_ok {α : Type} (att : Nat → Except DyErr (PageResp α))
    (fuel n : Nat) (r : PageResp α) (h : att n = .ok r) :
    retryLoop att fuel n = (none, .ok r, 1) := by
  unfold retryLoop
  rw [h]

theorem retryLoop_fatal {α : Type} (att : Nat → Except DyErr (PageResp α))
    (fuel n : Nat) (e : DyErr) (h : att n = .error e)
    (hr : isRetryable e = false) :
    retryLoop att fuel n = (none, .error e, 1) := by
  unfold retryLoop
  rw [h]
  simp [hr]

theorem pagedFetchGo_key_congr {α : Type}
    (svc : Option Nat → Nat → Except DyErr (PageResp α)) (retryFuel : Nat)
    (k k' : Option Nat) (hk : svc k = svc k') :
    ∀ pageFuel acc, pagedFetchGo svc retryFuel pageFuel k acc
      = pagedFetchGo svc retryFuel pageFuel k' acc := by
  intro pageFuel acc
  cases pageFuel with
  | zero => rfl
  | succ n =>
    show pagedFetchGo svc retryFuel (n + 1) k acc
      = pagedFetchGo svc retryFuel (n + 1) k' acc
    unfold pagedFetchGo
    rw [hk]

theorem flatten_drop_succ {α : Type} (pages : List (List α)) (j : Nat)
    (hj : j < pages.length) :
    (pages.drop j).flatten = pages.getD j [] ++ (pages.drop (j + 1)).flatten := by
  rw [List.drop_eq_getElem_cons hj, List.flatten_cons, List.getD_eq_getElem pages [] hj]

theorem pagedFetchGo_pages {α : Type} (pages : List (List α)) (rf : Nat) :
    ∀ fuel j acc, j < pages.length → pages.length - j ≤ fuel →
      pagedFetchGo (svcOfPages pages) rf fuel (some j) acc
        = some (.ok (acc ++ (pages.drop j).flatten)) := by
  intro fuel
  induction fuel with
  | zero => intro j acc hj hf; omega
  | succ n ih =>
    intro j acc hj hf
    show pagedFetchGo (svcOfPages pages) rf (n + 1) (some j) acc = _
    unfold pagedFetchGo
    rw [retryLoop_ok (svcOfPages pages (some j)) rf 0
      ⟨pages.getD j [], if j + 1 < pages.length then some (j + 1) else none⟩ rfl]
    by_cases hlt : j + 1 < pages.length
    · simp only [hlt, if_pos]
      rw [ih (j + 1) (acc ++ pages.getD j []) hlt (by omega)]
      rw [flatten_drop_succ pages j hj, List.append_assoc]
    · simp only [hlt, if_neg, not_false_eq_true]
      rw [flatten_drop_succ pages j hj]
      have hd : pages.drop (j + 1) = [] := List.drop_eq_nil_of_le (by omega)
      rw [hd]
      simp

theorem pagedFetchGo_failAt {α : Type} (pages : List (List α)) (fj : Nat)
    (e : DyErr) (he : isRetryable e = false) (rf : Nat) :
    ∀ fuel j acc, j ≤ fj → fj < pages.length → fj - j < fuel →
      pagedFetchGo (svcFailAt pages fj e) rf fuel (some j) acc
        = some (.error (.requestFailed e)) := by
  intro fuel
  induction fuel with
  | zero => intro j acc hj hfj hf; omega
  | succ n ih =>
    intro j acc hj hfj hf
    show pagedFetchGo (svcFailAt pages fj e) rf (n + 1) (some j) acc = _
    unfold pagedFetchGo
    by_cases hje : j = fj
    · have hatt : svcFailAt pages fj e (some j) 0 = .error e := by
        simp [svcFailAt, hje]
      rw [retryLoop_fatal (svcFailAt pages fj e (some j)) rf 0 e hatt he]
    · have hatt : svcFailAt pages fj e (some j) 0
          = .ok ⟨pages.getD j [], if j + 1 < pages.length then some (j + 1) else none⟩ := by
        simp [svcFailAt, hje, svcOfPages]
      rw [retryLoop_ok (svcFailAt pages fj e (some j)) rf 0 _ hatt]
      have hlt : j + 1 < pages.length := by omega
      simp only [hlt, if_pos]
      exact ih (j + 1) (acc ++ pages.getD j []) (by omega) hfj (by omega)

/-- C1: for every sequence of pages returned by the remote service, the
pager (`query` at src lines 432-481, `ScanItems` at 526-576, both embedded
as `pagedFetch`) without a limit returns exactly the concatenation of all
pages' record sequences in page order, following `LastEvaluatedKey` until
it is absent; and if any page attempt fails fatally, the whole call
returns an error — no partial results — even when earlier pages
succeeded. -/
theorem fetchAll_concatenates_pages {α : Type} (pages : List (List α))
    (rf fuel : Nat) (hfuel : pages.length < fuel) :
    pagedFetch (svcOfPages pages) rf fuel = some (.ok pages.flatten)
    ∧ ∀ (fj : Nat) (e : DyErr), fj < pages.length → isRetryable e = false →
        pagedFetch (svcFailAt pages fj e) rf fuel
          = some (.error (.requestFailed e)) := by
  constructor
  · cases hp : pages with
    | nil =>
      obtain ⟨n, rfl⟩ : ∃ n, fuel = n + 1 := ⟨fuel - 1, by omega⟩
      show pagedFetchGo (svcOfPages []) rf (n + 1) none [] = _
      unfold pagedFetchGo
      rw [retryLoop_ok (svcOfPages ([] : List (List α)) none) rf 0 ⟨[], none⟩ rfl]
      rfl
    | cons p ps =>
      rw [← hp]
      have h0 : 0 < pages.length := by rw [hp]; simp
      have hcongr : svcOfPages pages none = svcOfPages pages (some 0) := rfl
      unfold pagedFetch
      rw [pagedFetchGo_key_congr (svcOfPages pages) rf none (some 0) hcongr,
        pagedFetchGo_pages pages rf fuel 0 [] h0 (by omega)]
      simp
  · intro fj e hfj he
    have hcongr : svcFailAt pages fj e none = svcFailAt pages fj e (some 0) := rfl
    unfold pagedFetch
    rw [pagedFetchGo_key_congr (svcFailAt pages fj e) rf none (some 0) hcongr,
      pagedFetchGo_failAt pages fj e he rf fuel 0 [] (by omega) hfj (by omega)]

/-- Witness for `fetchAll_concatenates_pages` at a concrete three-page
service and a concrete fatal failure on the middle page. -/
theorem fetchAll_concatenates_pages_witness :
    ([[1, 2], [3], [4, 5]] : List (List Nat)).length < 4
    ∧ pagedFetch (svcOfPages [[1, 2], [3], [4, 5]]) 2 4
        = some (.ok [1, 2, 3, 4, 5])
    ∧ pagedFetch (svcFailAt [[1, 2], [3], [4, 5]] 1 ⟨true, "AccessDeniedException"⟩) 2 4
        = some (.error (.requestFailed ⟨true, "AccessDeniedException"⟩)) := by
  refine ⟨by decide, ?_, ?_⟩
  · have h := fetchAll_concatenates_pages ([[1, 2], [3], [4, 5]] : List (List Nat)) 2 4
      (by decide)
    exact h.1
  · exact (fetchAll_concatenates_pages ([[1, 2], [3], [4, 5]] : List (List Nat)) 2 4
      (by decide)).2 1 ⟨true, "AccessDeniedException"⟩ (by decide) (by decide)

theorem retryLoop_attempts_pos {α : Type} (att : Nat → Except DyErr (PageResp α)) :
    ∀ fuel n, 1 ≤ (retryLoop att fuel n).2.2 := by
  intro fuel
  induction fuel with
  | zero =>
    intro n
    unfold retryLoop
    cases att n with
    | ok r => simp
    | error e => by_cases hr : isRetryable e <;> simp [hr]
  | succ f ih =>
    intro n
    unfold retryLoop
    cases att n with
    | ok r => simp
    | error e => by_cases hr : isRetryable e <;> simp [hr]

theorem retryLoop_all_throttled {α : Type} (att : Nat → Except DyErr (PageResp α))
    (e : DyErr) (hall : ∀ a, att a = .error e) (hr : isRetryable e = true) :
    ∀ fuel n, retryLoop att fuel n = (some e, .error e, fuel + 1) := by
  intro fuel
  induction fuel with
  | zero =>
    intro n
    unfold retryLoop
    rw [hall n]
    simp [hr]
  | succ f ih =>
    intro n
    unfold retryLoop
    rw [hall n]
    simp [hr, ih (n + 1)]

/-- C2 (amended): a remote operation is retried if and only if it failed
with the provisioned-throughput-exceeded code; every other failure causes
no retry (exactly one attempt) and is immediately propagated wrapped
*without* elapsed-time context (`"query failed: %w"`), while the
elapsed-time context (`"query failed after %v: %w"`) is attached exactly
when the backoff policy gives up on a throttling error. -/
theorem retry_only_on_throttling {α : Type} :
    (∀ (att : Nat → Except DyErr (PageResp α)) (e : DyErr) (fuel n : Nat),
        att n = .error e → isRetryable e = true →
        2 ≤ (retryLoop att (fuel + 1) n).2.2)
    ∧ (∀ (att : Nat → Except DyErr (PageResp α)) (e : DyErr) (fuel n : Nat),
        att n = .error e → isRetryable e = false →
        retryLoop att fuel n = (none, .error e, 1))
    ∧ (∀ (svc : Option Nat → Nat → Except DyErr (PageResp α)) (rf fuel : Nat)
        (k : Option Nat) (acc : List α) (e : DyErr),
        svc k 0 = .error e → isRetryable e = false →
        pagedFetchGo svc rf (fuel + 1) k acc = some (.error (.requestFailed e))
        ∧ (QueryErr.requestFailed e).hasElapsedContext = false)
    ∧ (∀ (svc : Option Nat → Nat → Except DyErr (PageResp α)) (rf fuel : Nat)
        (k : Option Nat) (acc : List α) (e : DyErr),
        (∀ a, svc k a = .error e) → isRetryable e = true →
        pagedFetchGo svc rf (fuel + 1) k acc = some (.error (.retryExhausted e))
        ∧ (QueryErr.retryExhausted e).hasElapsedContext = true) := by
  refine ⟨?_, ?_, ?_, ?_⟩
  · intro att e fuel n h hr
    unfold retryLoop
    rw [h]
    simp only [hr, if_true]
    have := retryLoop_attempts_pos att fuel (n + 1)
    omega
  · intro att e fuel n h hr
    exact retryLoop_fatal att fuel n e h hr
  · intro svc rf fuel k acc e h hr
    refine ⟨?_, rfl⟩
    show pagedFetchGo svc rf (fuel + 1) k acc = _
    unfold pagedFetchGo
    rw [retryLoop_fatal (svc k) rf 0 e h hr]
  · intro svc rf fuel k acc e hall hr
    refine ⟨?_, rfl⟩
    show pagedFetchGo svc rf (fuel + 1) k acc = _
    unfold pagedFetchGo
    rw [retryLoop_all_throttled (svc k) e hall hr rf 0]

/-- Witness for `retry_only_on_throttling` at concrete services: a
throttling failure is retried, a denied request is not and is wrapped
without elapsed-time context, sustained throttling exhausts the backoff
policy into the elapsed-time wrap. -/
theorem retry_only_on_throttling_witness :
    2 ≤ (retryLoop (fun _ => .error throttleErr :
          Nat → Except DyErr (PageResp Nat)) (3 + 1) 0).2.2
    ∧ retryLoop (fun _ => .error accessDeniedErr :
          Nat → Except DyErr (PageResp Nat)) 5 0 = (none, .error accessDeniedErr, 1)
    ∧ pagedFetchGo svcDenied 5 (2 + 1) none []
        = some (.error (.requestFailed accessDeniedErr))
    ∧ pagedFetchGo svcThrottle 5 (2 + 1) none []
        = some (.error (.retryExhausted throttleErr)) := by
  refine ⟨?_, ?_, ?_, ?_⟩
  · exact (retry_only_on_throttling (α := Nat)).1 (fun _ => .error throttleErr)
      throttleErr 3 0 rfl (by decide)
  · exact (retry_only_on_throttling (α := Nat)).2.1 (fun _ => .error accessDeniedErr)
      accessDeniedErr 5 0 rfl (by decide)
  · exact ((retry_only_on_throttling (α := Nat)).2.2.1 svcDenied 5 2 none []
      accessDeniedErr rfl (by decide)).1
  · exact ((retry_only_on_throttling (α := Nat)).2.2.2 svcThrottle 5 2 none []
      throttleErr (fun _ => rfl) (by decide)).1

/-- C2 counterexample: a request failing with a non-throttling error
(permission denied) is propagated wrapped by `"query failed: %w"`, which
carries no elapsed-time context — contradicting the claim that every
non-throttling failure is propagated wrapped with elapsed-time context. -/
theorem nonthrottle_error_lacks_elapsed_context :
    pagedFetch svcDenied 5 3 = some (.error (.requestFailed accessDeniedErr))
    ∧ (QueryErr.requestFailed accessDeniedErr).hasElapsedContext = false := by
  exact ⟨rfl, rfl⟩


theorem flatten_take_succ {α : Type} (pages : List (List α)) (j : Nat)
    (hj : j < pages.length) :
    (pages.take (j + 1)).flatten = (pages.take j).flatten ++ pages.getD j [] := by
  rw [List.take_succ, List.flatten_append]
  simp [List.getElem?_eq_getElem hj, List.getD_eq_getElem pages [] hj]

theorem pagedFetchLimitGo_succ {α : Type}
    (svc : Option Nat → Nat → Except DyErr (PageResp α)) (rf L n : Nat)
    (k : Option Nat) (acc : List α) (cnt : Nat) (its : List α) (lek : Option Nat)
    (hsvc : svc k 0 = .ok ⟨its, lek⟩) :
    pagedFetchLimitGo svc rf L (n + 1) k acc cnt
      = (if L ≤ (acc ++ its).length then some (.ok ((acc ++ its).take L, cnt + 1))
        else
          match lek with
          | none => some (.ok (acc ++ its, cnt + 1))
          | some k2 => pagedFetchLimitGo svc rf L n (some k2) (acc ++ its) (cnt + 1)) := by
  conv_lhs => rw [pagedFetchLimitGo]
  rw [retryLoop_ok (svc k) rf 0 ⟨its, lek⟩ hsvc]

theorem pagedFetchLimitGo_pages {α : Type} (pages : List (List α)) (rf L : Nat)
    (hL : 0 < L) (htot : L ≤ pages.flatten.length) :
    ∀ fuel j, j < pages.length → (pages.take j).flatten.length < L →
      pages.length - j ≤ fuel →
      ∃ c, pagedFetchLimitGo (svcOfPages pages) rf L fuel (some j)
            ((pages.take j).flatten) j
          = some (.ok (pages.flatten.take L, c))
        ∧ j < c ∧ c ≤ pages.length
        ∧ (pages.take (c - 1)).flatten.length < L
        ∧ L ≤ (pages.take c).flatten.length := by
  intro fuel
  induction fuel with
  | zero => intro j hj hacc hf; omega
  | succ n ih =>
    intro j hj hacc hf
    rw [pagedFetchLimitGo_succ (svcOfPages pages) rf L n (some j)
      ((pages.take j).flatten) j (pages.getD j [])
      (if j + 1 < pages.length then some (j + 1) else none) rfl]
    by_cases hstop : L ≤ ((pages.take j).flatten ++ pages.getD j []).length
    · have hlen2 : L ≤ (pages.take (j + 1)).flatten.length := by
        rw [flatten_take_succ pages j hj]
        exact hstop
      refine ⟨j + 1, ?_, Nat.lt_succ_self j, by omega, ?_, hlen2⟩
      · simp only [hstop, if_pos]
        have hpref : ((pages.take j).flatten ++ pages.getD j []).take L
            = pages.flatten.take L := by
          have hsplit : pages.flatten
              = (pages.take (j + 1)).flatten ++ (pages.drop (j + 1)).flatten := by
            rw [← List.flatten_append, List.take_append_drop]
          rw [hsplit, ← flatten_take_succ pages j hj,
            List.take_append_of_le_length (by rw [flatten_take_succ pages j hj]; exact hstop)]
        rw [hpref]
      · show (pages.take (j + 1 - 1)).flatten.length < L
        simpa using hacc
    · simp only [hstop, if_neg, not_false_eq_true]
      have hlt : j + 1 < pages.length := by
        by_contra hge
        have htake : pages.take (j + 1) = pages := List.take_of_length_le (by omega)
        have hsm : (pages.take (j + 1)).flatten.length < L := by
          rw [flatten_take_succ pages j hj]
          omega
        rw [htake] at hsm
        omega
      simp only [hlt, if_pos]
      have hacc' : (pages.take (j + 1)).flatten.length < L := by
        rw [flatten_take_succ pages j hj]
        omega
      obtain ⟨c, hc, hjc, hcl, hc1, hc2⟩ := ih (j + 1) hlt hacc' (by omega)
      refine ⟨c, ?_, by omega, hcl, hc1, hc2⟩
      rw [← flatten_take_succ pages j hj]
      exact hc

theorem runRetrieveGo_ok {β : Type} (g : String → String → Except QueryErr (List β))
    (sks : List String) (outs : Nat → List β) :
    ∀ (rest : List String) (i : Nat) (acc : List β),
      (∀ j, j < rest.length → g (rest.getD j "") (pairedSk sks (i + j)) = .ok (outs (i + j))) →
      runRetrieveGo g sks rest i acc = .ok (acc ++ joinOuts outs i rest.length) := by
  intro rest
  induction rest with
  | nil =>
    intro i acc _
    show Except.ok acc = _
    simp [joinOuts]
  | cons v rest ih =>
    intro i acc h
    have h0 : g v (pairedSk sks i) = .ok (outs i) := by
      have := h 0 (by simp)
      simpa using this
    show (match g v (pairedSk sks i) with
      | .error e => Except.error e
      | .ok tmp => runRetrieveGo g sks rest (i + 1) (acc ++ tmp)) = _
    rw [h0]
    show runRetrieveGo g sks rest (i + 1) (acc ++ outs i)
      = Except.ok (acc ++ joinOuts outs i (v :: rest).length)
    have hrec := ih (i + 1) (acc ++ outs i) (by
      intro j hjr
      have heq : i + (j + 1) = (i + 1) + j := by omega
      have := h (j + 1) (by simp; omega)
      rw [heq] at this
      simpa using this)
    rw [hrec, List.append_assoc]
    rfl

theorem joinOuts_length {β : Type} (outs : Nat → List β) (Lp : Nat) :
    ∀ n i, (∀ j, i ≤ j → j < i + n → (outs j).length = Lp) →
      (joinOuts outs i n).length = n * Lp := by
  intro n
  induction n with
  | zero => intro i _; simp [joinOuts]
  | succ m ih =>
    intro i h
    show (outs i ++ joinOuts outs (i + 1) m).length = _
    rw [List.length_append, ih (i + 1) (by intro j h1 h2; exact h j (by omega) (by omega)),
      h i (by omega) (by omega)]
    ring

theorem pagedFetchLimitGo_key_congr {α : Type}
    (svc : Option Nat → Nat → Except DyErr (PageResp α)) (rf L : Nat)
    (k k' : Option Nat) (hk : svc k = svc k') :
    ∀ fuel acc cnt, pagedFetchLimitGo svc rf L fuel k acc cnt
      = pagedFetchLimitGo svc rf L fuel k' acc cnt := by
  intro fuel acc cnt
  cases fuel with
  | zero => rfl
  | succ n =>
    show pagedFetchLimitGo svc rf L (n + 1) k acc cnt
      = pagedFetchLimitGo svc rf L (n + 1) k' acc cnt
    unfold pagedFetchLimitGo
    rw [hk]

/-- C3: with a positive limit `L` not exceeding the total record count,
the limit-honoring fetch (modelled from the spec, since the `libdy` limit
overloads called by `run` are external to this repository's sources)
returns exactly the first `L` records and stops at the page containing
the `L`-th record: the pages fetched before the last one hold fewer than
`L` records, the fetched prefix holds at least `L`, and no further page
request is issued.  Moreover the limit applies to each key-pair query of
`run`'s retrieval loop independently: when each per-key call returns `Lp`
records, the concatenated result holds `K * Lp` records, not `Lp`. -/
theorem limit_fetch_first_L {α : Type} (pages : List (List α)) (rf L fuel : Nat)
    (hL : 0 < L) (htot : L ≤ pages.flatten.length) (hfuel : pages.length < fuel) :
    (∃ c, pagedFetchLimit (svcOfPages pages) rf L fuel
          = some (.ok (pages.flatten.take L, c))
        ∧ 0 < c ∧ c ≤ pages.length
        ∧ (pages.take (c - 1)).flatten.length < L
        ∧ L ≤ (pages.take c).flatten.length)
    ∧ (∀ {β : Type} (g : String → String → Except QueryErr (List β))
        (pks sks : List String) (outs : Nat → List β) (Lp : Nat),
        (∀ j, j < pks.length → g (pks.getD j "") (pairedSk sks j) = .ok (outs j)) →
        (∀ j, j < pks.length → (outs j).length = Lp) →
        runRetrieveL g pks sks = .ok (joinOuts outs 0 pks.length)
        ∧ (joinOuts outs 0 pks.length).length = pks.length * Lp) := by
  constructor
  · have hpos : 0 < pages.length := by
      rcases pages with _ | ⟨p, ps⟩
      · simp at htot; omega
      · simp
    have hcongr : svcOfPages pages none = svcOfPages pages (some 0) := rfl
    unfold pagedFetchLimit
    rw [pagedFetchLimitGo_key_congr (svcOfPages pages) rf L none (some 0) hcongr]
    have := pagedFetchLimitGo_pages pages rf L hL htot fuel 0 hpos
      (by simpa using hL) (by omega)
    simpa using this
  · intro β g pks sks outs Lp hok hlen
    constructor
    · have := runRetrieveGo_ok g sks outs pks 0 [] (by intro j hj; simpa using hok j hj)
      simpa [runRetrieveL] using this
    · exact joinOuts_length outs Lp pks.length 0 (fun j h1 h2 => hlen j (by omega))

/-- Witness for `limit_fetch_first_L`: five records over three pages with
limit 3 return the first three records stopping after page 2; two key
pairs whose per-key calls each return two records yield four records. -/
theorem limit_fetch_first_L_witness :
    (∃ c, pagedFetchLimit (svcOfPages [[1, 2], [3, 4], [5]]) 2 3 4
          = some (.ok ([1, 2, 3], c))
        ∧ 0 < c ∧ c ≤ 3
        ∧ (([[1, 2], [3, 4], [5]] : List (List Nat)).take (c - 1)).flatten.length < 3
        ∧ 3 ≤ (([[1, 2], [3, 4], [5]] : List (List Nat)).take c).flatten.length)
    ∧ runRetrieveL (fun p _ => .ok [p, p]) ["id:A", "id:B"] []
        = .ok (joinOuts (fun j => [["id:A", "id:B"].getD j "", ["id:A", "id:B"].getD j ""]) 0 2)
    ∧ (joinOuts (fun j => [["id:A", "id:B"].getD j "", ["id:A", "id:B"].getD j ""]) 0 2).length
        = 2 * 2 := by
  have h := limit_fetch_first_L ([[1, 2], [3, 4], [5]] : List (List Nat)) 2 3 4
    (by decide) (by decide) (by decide)
  exact ⟨h.1,
    (h.2 (fun p _ => .ok [p, p]) ["id:A", "id:B"] []
      (fun j => [["id:A", "id:B"].getD j "", ["id:A", "id:B"].getD j ""]) 2
      (fun j _ => rfl) (fun j _ => rfl)).1,
    (h.2 (fun p _ => .ok [p, p]) ["id:A", "id:B"] []
      (fun j => [["id:A", "id:B"].getD j "", ["id:A", "id:B"].getD j ""]) 2
      (fun j _ => rfl) (fun j _ => rfl)).2⟩

/-- C4 (amended): when the explicit `--attr` list is non-empty the schema
is exactly that list — in user-supplied order only when `--nosort` is
set, and sorted alphabetically otherwise — and the derived-union path is
ignored (the schema does not depend on the records). -/
theorem explicit_columns_schema (m m' : List DyRecord) (incols : List String)
    (nosort : Bool) (h : incols ≠ []) :
    project m incols nosort = (if nosort then incols else sortStrings incols)
    ∧ project m incols nosort = project m' incols nosort := by
  have hp : 0 < incols.length := List.length_pos.mpr h
  constructor
  · unfold project
    simp only [hp, if_pos]
    cases nosort <;> simp
  · unfold project
    simp only [hp, if_pos]

/-- Witness for `explicit_columns_schema`: with `--nosort`, the explicit
list `["b", "a"]` is kept in user order and is independent of the
records. -/
theorem explicit_columns_schema_witness :
    (["b", "a"] : List String) ≠ []
    ∧ project [] ["b", "a"] true = ["b", "a"]
    ∧ project [] ["b", "a"] true = project [[("x", "1")]] ["b", "a"] true := by
  have h := explicit_columns_schema [] [[("x", "1")]] ["b", "a"] true (by decide)
  exact ⟨by decide, by simpa using h.1, h.2⟩

/-- C4 counterexample: without `--nosort`, the explicit list `["b", "a"]`
is sorted to `["a", "b"]` — the user-supplied order is *not* kept
regardless of the sort-suppression flag (`sort.Strings(sortedlbl)` at
src line 219 also applies to the explicit list, as the README's
"unsorted columns" vs "sorted columns" examples document). -/
theorem explicit_columns_sorted_by_default :
    project [] ["b", "a"] false = ["a", "b"]
    ∧ project [] ["b", "a"] false ≠ ["b", "a"] := by
  exact ⟨rfl, by decide⟩

theorem splitCharList_ne_nil (c : Char) : ∀ l, splitCharList c l ≠ [] := by
  intro l
  induction l with
  | nil => simp [splitCharList]
  | cons x xs ih =>
    unfold splitCharList
    cases h : splitCharList c xs with
    | nil => simp
    | cons hh tt => by_cases hx : x = c <;> simp [hx]

theorem splitCharList_no_sep (c : Char) : ∀ a, c ∉ a → splitCharList c a = [a] := by
  intro a
  induction a with
  | nil => intro _; rfl
  | cons x xs ih =>
    intro h
    have hx : ¬x = c := fun he => h (he ▸ List.mem_cons_self x xs)
    have hxs : c ∉ xs := fun hm => h (List.mem_cons_of_mem x hm)
    unfold splitCharList
    rw [ih hxs]
    simp [hx]

theorem splitCharList_sep (c : Char) :
    ∀ (a b : List Char), c ∉ a →
      splitCharList c (a ++ c :: b) = a :: splitCharList c b := by
  intro a
  induction a with
  | nil =>
    intro b _
    show splitCharList c (c :: b) = _
    conv_lhs => rw [splitCharList]
    cases hsp : splitCharList c b with
    | nil => exact absurd hsp (splitCharList_ne_nil c b)
    | cons hh tt => simp
  | cons x xs ih =>
    intro b hnot
    have hx : ¬x = c := fun he => hnot (he ▸ List.mem_cons_self x xs)
    have hxs : c ∉ xs := fun hm => hnot (List.mem_cons_of_mem x hm)
    show splitCharList c (x :: (xs ++ c :: b)) = _
    conv_lhs => rw [splitCharList]
    rw [ih b hxs]
    simp [hx]

theorem strToList_append (a b : String) : (a ++ b).toList = a.toList ++ b.toList := by
  cases a
  cases b
  rfl

theorem strMk_toList (s : String) : String.mk s.toList = s := by
  cases s
  rfl

/-- C5 (amended): a non-empty key spec without `":"` makes the validation
of `run` fail with the malformed-key error; a spec with `":"` is split on
*every* colon, the attribute name being the part before the first colon
and the value the segment between the first and second colon — anything
after a second colon is dropped from the value (Go `strings.Split`, not a
max-1 split). -/
theorem keyspec_codec :
    (∀ (pks : List String) (lbl v : String), v ∈ pks → v ≠ "" →
        strContains v ":" = false → ∃ msg, validateKeySpecs pks lbl = .error msg)
    ∧ (∀ n v1 : String, ':' ∉ n.toList → ':' ∉ v1.toList →
        splitKeySpec (n ++ ":" ++ v1) = (n, v1))
    ∧ (∀ n v1 v2 : String, ':' ∉ n.toList → ':' ∉ v1.toList →
        splitKeySpec (n ++ ":" ++ v1 ++ ":" ++ v2) = (n, v1)) := by
  refine ⟨?_, ?_, ?_⟩
  · intro pks
    induction pks with
    | nil => intro lbl v hv; simp at hv
    | cons w rest ih =>
      intro lbl v hv hne hnc
      have hstep : validateKeySpecs (w :: rest) lbl
          = if w ≠ "" then
              (if !(strContains w ":") then Except.error ("invalid format: " ++ w)
              else validateKeySpecs rest ((goSplit w ':').getD 0 ""))
            else validateKeySpecs rest lbl := rfl
      by_cases hw : w = ""
      · have hvr : v ∈ rest := by
          rcases List.mem_cons.mp hv with h | h
          · exact absurd (h.trans hw) hne
          · exact h
        obtain ⟨msg, hmsg⟩ := ih lbl v hvr hne hnc
        refine ⟨msg, ?_⟩
        rw [hstep, if_neg (by simp [hw])]
        exact hmsg
      · by_cases hcw : strContains w ":"
        · have hvr : v ∈ rest := by
            rcases List.mem_cons.mp hv with h | h
            · rw [h] at hnc; rw [hnc] at hcw; exact absurd hcw (by simp)
            · exact h
          obtain ⟨msg, hmsg⟩ := ih ((goSplit w ':').getD 0 "") v hvr hne hnc
          refine ⟨msg, ?_⟩
          rw [hstep, if_pos hw, hcw]
          exact hmsg
        · refine ⟨"invalid format: " ++ w, ?_⟩
          have hcw' : strContains w ":" = false := by
            revert hcw
            cases strContains w ":" <;> simp
          rw [hstep, if_pos hw, hcw']
          simp
  · intro n v1 hn hv1
    have hl : (n ++ ":" ++ v1).toList = n.toList ++ ':' :: v1.toList := by
      rw [strToList_append, strToList_append]
      simp
    unfold splitKeySpec goSplit
    rw [hl, splitCharList_sep ':' n.toList v1.toList hn,
      splitCharList_no_sep ':' v1.toList hv1]
    simp [strMk_toList]
  · intro n v1 v2 hn hv1
    have hl : (n ++ ":" ++ v1 ++ ":" ++ v2).toList
        = n.toList ++ ':' :: (v1.toList ++ ':' :: v2.toList) := by
      rw [strToList_append, strToList_append, strToList_append, strToList_append]
      simp
    unfold splitKeySpec goSplit
    rw [hl, splitCharList_sep ':' n.toList (v1.toList ++ ':' :: v2.toList) hn,
      splitCharList_sep ':' v1.toList v2.toList hv1]
    simp [strMk_toList]

/-- Witness for `keyspec_codec` at concrete specs. -/
theorem keyspec_codec_witness :
    (∃ msg, validateKeySpecs ["id"] "" = .error msg)
    ∧ splitKeySpec ("pk" ++ ":" ++ "A") = ("pk", "A")
    ∧ splitKeySpec ("pk" ++ ":" ++ "A" ++ ":" ++ "B") = ("pk", "A") := by
  exact ⟨keyspec_codec.1 ["id"] "" "id" (by decide) (by decide) (by decide),
    keyspec_codec.2.1 "pk" "A" (by decide) (by decide),
    keyspec_codec.2.2 "pk" "A" "B" (by decide) (by decide)⟩

/-- C5 counterexample, one concrete input per divergence of the claim as
stated: the value of `"id:a:b"` is `"a"`, not the entire remainder
`"a:b"` (`GetItems` splits on every colon and takes element 1); and the
empty key spec, which contains no `":"`, does *not* fail validation —
the loop at src line 76 skips empty specs, so the malformed-key error is
raised only for non-empty specs. -/
theorem keyspec_value_truncated_and_empty_skipped :
    splitKeySpec "id:a:b" = ("id", "a")
    ∧ splitKeySpec "id:a:b" ≠ ("id", "a:b")
    ∧ strContains "" ":" = false
    ∧ validateKeySpecs [""] "id" = .ok "id" := by
  exact ⟨rfl, by decide, by decide, rfl⟩

/-- C10: in `run`'s retrieval loop, sort-spec `i` is paired with
primary-spec `i` — adding a `begins_with` condition built from that
sort-spec — exactly when `i < len(sortSpecs)` (for non-empty sort specs);
for `i ≥ len(sortSpecs)` the sort condition is omitted; and the per-key
results are concatenated in the input order of the primary-key specs. -/
theorem key_pairing_and_concatenation :
    (∀ (table : String) (pks sks : List String) (i : Nat),
        i < sks.length → sks.getD i "" ≠ "" →
        (getItemsInput table (pks.getD i "") (pairedSk sks i)).sortCond
          = some (splitKeySpec (sks.getD i "")))
    ∧ (∀ (table pk : String) (sks : List String) (i : Nat), sks.length ≤ i →
        (getItemsInput table pk (pairedSk sks i)).sortCond = none)
    ∧ (∀ (β : Type) (g : String → String → Except QueryErr (List β))
        (pks sks : List String) (outs : Nat → List β),
        (∀ j, j < pks.length → g (pks.getD j "") (pairedSk sks j) = .ok (outs j)) →
        runRetrieveL g pks sks = .ok (joinOuts outs 0 pks.length)) := by
  refine ⟨?_, ?_, ?_⟩
  · intro table pks sks i hi hne
    have hps : pairedSk sks i = sks.getD i "" := by
      unfold pairedSk
      rw [if_pos (by omega : 0 < sks.length), if_pos (by omega : i + 1 ≤ sks.length)]
    rw [hps]
    unfold getItemsInput splitKeySpec
    rw [if_pos hne]
  · intro table pk sks i hi
    have hps : pairedSk sks i = "" := by
      unfold pairedSk
      by_cases h0 : 0 < sks.length
      · rw [if_pos h0, if_neg (by omega : ¬i + 1 ≤ sks.length)]
      · rw [if_neg h0]
    rw [hps]
    rfl
  · intro β g pks sks outs hok
    have := runRetrieveGo_ok g sks outs pks 0 [] (by intro j hj; simpa using hok j hj)
    simpa [runRetrieveL] using this

/-- Witness for `key_pairing_and_concatenation`: two pk specs, one sk
spec — the first query carries the `begins_with` pair, the second does
not, and results concatenate in pk order. -/
theorem key_pairing_and_concatenation_witness :
    (getItemsInput "T" "id:A" (pairedSk ["sk:X"] 0)).sortCond = some (splitKeySpec "sk:X")
    ∧ (getItemsInput "T" "id:B" (pairedSk ["sk:X"] 1)).sortCond = none
    ∧ runRetrieveL (fun p _ => .ok [p]) ["id:A", "id:B"] ["sk:X"]
        = .ok (joinOuts (fun j => [["id:A", "id:B"].getD j ""]) 0 2) := by
  refine ⟨?_, ?_, ?_⟩
  · exact key_pairing_and_concatenation.1 "T" ["id:A", "id:B"] ["sk:X"] 0
      (by decide) (by decide)
  · exact key_pairing_and_concatenation.2.1 "T" "id:B" ["sk:X"] 1 (by decide)
  · exact key_pairing_and_concatenation.2.2 String (fun p _ => .ok [p])
      ["id:A", "id:B"] ["sk:X"] (fun j => [["id:A", "id:B"].getD j ""])
      (fun j _ => rfl)

theorem strMk_length (l : List Char) : (String.mk l).length = l.length := rfl

theorem strToList_length (s : String) : s.toList.length = s.length := rfl

theorem quoteNormalize_length (s : String) : (quoteNormalize s).length = s.length := by
  show (String.mk (s.toList.map _)).length = s.length
  rw [strMk_length, List.length_map, strToList_length]

theorem truncateGo_length_le (v : String) (maxlen : Nat) :
    (truncateGo v maxlen).length ≤ maxlen := by
  unfold truncateGo
  by_cases h : maxlen < v.length
  · rw [if_pos h]
    show (String.mk (v.toList.take maxlen)).length ≤ maxlen
    rw [strMk_length, List.length_take]
    omega
  · rw [if_neg h]
    omega

theorem renderRowGo_cons_present (decode : String → Option String)
    (compile : String → Option (String → Bool)) (maps : DyRecord)
    (b64dec conts : List String) (maxlen : Nat) (k : String) (ks : List String)
    (i : Nat) (inc : Bool) (rows qrows : List String) (v row : String) (inc2 : Bool)
    (hlk : maps.lookup k = some v)
    (hb : applyB64All decode b64dec i v = some row)
    (hf : applyFilterAll compile conts i row inc = some inc2) :
    renderRowGo decode compile maps b64dec conts maxlen (k :: ks) i inc rows qrows
      = renderRowGo decode compile maps b64dec conts maxlen ks (i + 1) inc2
          (rows ++ [row]) (qrows ++ [quoteNormalize (truncateGo row maxlen)]) := by
  conv_lhs => rw [renderRowGo]
  simp only [hlk, hb, hf]

theorem renderRowGo_cons_missing (decode : String → Option String)
    (compile : String → Option (String → Bool)) (maps : DyRecord)
    (b64dec conts : List String) (maxlen : Nat) (k : String) (ks : List String)
    (i : Nat) (inc : Bool) (rows qrows : List String)
    (hlk : maps.lookup k = none) :
    renderRowGo decode compile maps b64dec conts maxlen (k :: ks) i inc rows qrows
      = renderRowGo decode compile maps b64dec conts maxlen ks (i + 1) inc
          (rows ++ ["-"]) (qrows ++ ["-"]) := by
  conv_lhs => rw [renderRowGo]
  simp only [hlk]

/-- C6 (amended): for a present attribute with no transform or filter
rules, the display cell is the stringified value *unmodified* (no
truncation — column width is left to the table-rendering library), while
the CSV cell is independently truncated to at most `maxLen` characters
and has its double quotes replaced by single quotes; the CSV cell never
exceeds `maxLen` characters. -/
theorem cell_truncation_semantics (decode : String → Option String)
    (compile : String → Option (String → Bool)) (k v : String) (maxlen : Nat) :
    renderRow decode compile [(k, v)] [k] [] [] maxlen
      = some ([v], [quoteNormalize (truncateGo v maxlen)], true)
    ∧ (quoteNormalize (truncateGo v maxlen)).length ≤ maxlen := by
  constructor
  · have hlk : List.lookup k [(k, v)] = some v := by simp [List.lookup]
    rw [renderRow, renderRowGo_cons_present decode compile [(k, v)] [] [] maxlen
      k [] 0 true [] [] v v true hlk rfl rfl]
    rfl
  · rw [quoteNormalize_length]
    exact truncateGo_length_le v maxlen

/-- C6 counterexample: with `maxlen = 2`, the display cell keeps all four
characters of `"abcd"` — it is not truncated to `maxLen` (truncation at
src lines 315-317 happens only after the display row has been appended,
so it affects only the CSV form). -/
theorem display_cell_not_truncated :
    renderRow noDecode rejectAllRegexEngine [("c", "abcd")] ["c"] [] [] 2
      = some (["abcd"], ["ab"], true)
    ∧ ("abcd" : String).length > 2 := by
  exact ⟨rfl, by decide⟩

theorem renderRowGo_preserve (decode : String → Option String)
    (compile : String → Option (String → Bool)) (maps : DyRecord)
    (conts : List String) (maxlen : Nat)
    (hno : ∀ (i : Nat) (row : String) (inc : Bool), 1 ≤ i →
      applyFilterAll compile conts i row inc = some inc) :
    ∀ (ks : List String) (i : Nat) (inc : Bool) (rows qrows : List String), 1 ≤ i →
      ∃ r2 q2, renderRowGo decode compile maps [] conts maxlen ks i inc rows qrows
        = some (r2, q2, inc) := by
  intro ks
  induction ks with
  | nil => intro i inc rows qrows _; exact ⟨rows, qrows, rfl⟩
  | cons k ks ih =>
    intro i inc rows qrows hi
    cases hlk : maps.lookup k with
    | none =>
      obtain ⟨r2, q2, h2⟩ := ih (i + 1) inc (rows ++ ["-"]) (qrows ++ ["-"]) (by omega)
      refine ⟨r2, q2, ?_⟩
      rw [renderRowGo_cons_missing decode compile maps [] conts maxlen k ks i inc
        rows qrows hlk]
      exact h2
    | some v =>
      obtain ⟨r2, q2, h2⟩ := ih (i + 1) inc (rows ++ [v])
        (qrows ++ [quoteNormalize (truncateGo v maxlen)]) (by omega)
      refine ⟨r2, q2, ?_⟩
      rw [renderRowGo_cons_present decode compile maps [] conts maxlen k ks i inc
        rows qrows v v inc hlk rfl (hno i v inc hi)]
      exact h2

theorem applyFilterAll_substr (compile : String → Option (String → Bool))
    (i : Nat) (row : String) (inc : Bool) :
    applyFilterAll compile ["0:foo"] i row inc
      = if goAtoi "0" = (i : Int) then some (strContains row "foo") else some inc := rfl

theorem applyFilterAll_substr_not (compile : String → Option (String → Bool))
    (i : Nat) (row : String) (inc : Bool) :
    applyFilterAll compile ["0:^foo"] i row inc
      = if goAtoi "0" = (i : Int) then
          (if strContains row "foo" then some false else some inc)
        else some inc := rfl

theorem goAtoi_zero_ne (i : Nat) (hi : 1 ≤ i) : ¬goAtoi "0" = (i : Int) := by
  intro h
  have h0 : goAtoi "0" = (0 : Int) := rfl
  rw [h0] at h
  have : i = 0 := by exact_mod_cast h.symm
  omega

theorem processRows_cons_skip (decode : String → Option String)
    (compile : String → Option (String → Bool)) (schema b64dec conts : List String)
    (maxlen : Nat) (del : Bool) (pklbl sklbl : String) (maps : DyRecord)
    (rest : List DyRecord) (st : RunOut) (rows qrows : List String)
    (hr : renderRow decode compile maps schema b64dec conts maxlen
      = some (rows, qrows, false)) :
    processRows decode compile schema b64dec conts maxlen del pklbl sklbl
        (maps :: rest) st
      = processRows decode compile schema b64dec conts maxlen del pklbl sklbl rest st := by
  conv_lhs => rw [processRows]
  rw [hr]
  rfl

/-- C7: a substring filter rule `0:foo` makes a row with a present
column-0 attribute included exactly when that cell contains `"foo"`, and
`0:^foo` excludes it exactly when the cell contains `"foo"`; a row whose
final include flag is false is skipped entirely — the row loop's outputs
(table rows, CSV rows, and the deletion mapping) are those of the run
without that row. -/
theorem contains_filter_semantics :
    (∀ (decode : String → Option String) (compile : String → Option (String → Bool))
        (maps : DyRecord) (k : String) (ks : List String) (v : String) (maxlen : Nat),
        maps.lookup k = some v →
        ∃ rows qrows, renderRow decode compile maps (k :: ks) [] ["0:foo"] maxlen
          = some (rows, qrows, strContains v "foo"))
    ∧ (∀ (decode : String → Option String) (compile : String → Option (String → Bool))
        (maps : DyRecord) (k : String) (ks : List String) (v : String) (maxlen : Nat),
        maps.lookup k = some v →
        ∃ rows qrows, renderRow decode compile maps (k :: ks) [] ["0:^foo"] maxlen
          = some (rows, qrows, !strContains v "foo"))
    ∧ (∀ (decode : String → Option String) (compile : String → Option (String → Bool))
        (schema b64dec conts : List String) (maxlen : Nat) (del : Bool)
        (pklbl sklbl : String) (maps : DyRecord) (rest : List DyRecord) (st : RunOut)
        (rows qrows : List String),
        renderRow decode compile maps schema b64dec conts maxlen
          = some (rows, qrows, false) →
        processRows decode compile schema b64dec conts maxlen del pklbl sklbl
            (maps :: rest) st
          = processRows decode compile schema b64dec conts maxlen del pklbl sklbl
              rest st) := by
  refine ⟨?_, ?_, ?_⟩
  · intro decode compile maps k ks v maxlen hlk
    have hno : ∀ (i : Nat) (row : String) (inc : Bool), 1 ≤ i →
        applyFilterAll compile ["0:foo"] i row inc = some inc := by
      intro i row inc hi
      rw [applyFilterAll_substr, if_neg (goAtoi_zero_ne i hi)]
    have hf0 : applyFilterAll compile ["0:foo"] 0 v true
        = some (strContains v "foo") := by
      rw [applyFilterAll_substr, if_pos (by rfl)]
    obtain ⟨r2, q2, h2⟩ := renderRowGo_preserve decode compile maps ["0:foo"] maxlen
      hno ks 1 (strContains v "foo") ([] ++ [v])
      ([] ++ [quoteNormalize (truncateGo v maxlen)]) (by omega)
    refine ⟨r2, q2, ?_⟩
    rw [renderRow, renderRowGo_cons_present decode compile maps [] ["0:foo"] maxlen
      k ks 0 true [] [] v v (strContains v "foo") hlk rfl hf0]
    exact h2
  · intro decode compile maps k ks v maxlen hlk
    have hno : ∀ (i : Nat) (row : String) (inc : Bool), 1 ≤ i →
        applyFilterAll compile ["0:^foo"] i row inc = some inc := by
      intro i row inc hi
      rw [applyFilterAll_substr_not, if_neg (goAtoi_zero_ne i hi)]
    have hf0 : applyFilterAll compile ["0:^foo"] 0 v true
        = some (!strContains v "foo") := by
      rw [applyFilterAll_substr_not, if_pos (by rfl)]
      cases hc : strContains v "foo" <;> simp
    obtain ⟨r2, q2, h2⟩ := renderRowGo_preserve decode compile maps ["0:^foo"] maxlen
      hno ks 1 (!strContains v "foo") ([] ++ [v])
      ([] ++ [quoteNormalize (truncateGo v maxlen)]) (by omega)
    refine ⟨r2, q2, ?_⟩
    rw [renderRow, renderRowGo_cons_present decode compile maps [] ["0:^foo"] maxlen
      k ks 0 true [] [] v v (!strContains v "foo") hlk rfl hf0]
    exact h2
  · intro decode compile schema b64dec conts maxlen del pklbl sklbl maps rest st
      rows qrows hr
    exact processRows_cons_skip decode compile schema b64dec conts maxlen del
      pklbl sklbl maps rest st rows qrows hr

/-- Witness for `contains_filter_semantics` at a concrete record whose
column-0 cell is `"xfoo"`: included under `0:foo`, excluded under
`0:^foo`, and an excluded row leaves the loop outputs unchanged. -/
theorem contains_filter_semantics_witness :
    (∃ rows qrows, renderRow noDecode rejectAllRegexEngine [("c", "xfoo")]
        ["c", "d"] [] ["0:foo"] 5 = some (rows, qrows, strContains "xfoo" "foo"))
    ∧ (∃ rows qrows, renderRow noDecode rejectAllRegexEngine [("c", "xfoo")]
        ["c", "d"] [] ["0:^foo"] 5 = some (rows, qrows, !strContains "xfoo" "foo"))
    ∧ processRows noDecode rejectAllRegexEngine ["c"] [] ["0:^foo"] 5 true "id" "sk"
        ([("c", "foo")] :: []) ⟨[], [], []⟩
      = processRows noDecode rejectAllRegexEngine ["c"] [] ["0:^foo"] 5 true "id" "sk"
          [] ⟨[], [], []⟩ := by
  refine ⟨?_, ?_, ?_⟩
  · exact contains_filter_semantics.1 noDecode rejectAllRegexEngine [("c", "xfoo")]
      "c" ["d"] "xfoo" 5 rfl
  · exact contains_filter_semantics.2.1 noDecode rejectAllRegexEngine [("c", "xfoo")]
      "c" ["d"] "xfoo" 5 rfl
  · exact contains_filter_semantics.2.2 noDecode rejectAllRegexEngine ["c"] []
      ["0:^foo"] 5 true "id" "sk" [("c", "foo")] [] ⟨[], [], []⟩ ["foo"] ["foo"] rfl

theorem applyB64Rule_safe (decode : String → Option String) (r : String) (i : Nat)
    (row : String) (h : b64RuleSafe r = true) :
    (applyB64Rule decode r i row).isSome = true := by
  unfold b64RuleSafe at h
  simp only [applyB64Rule]
  by_cases h1 : (goSplit r ':').length = 1
  · rw [if_pos h1]
    by_cases h2 : goAtoi ((goSplit r ':').getD 0 "") = (i : Int)
    · rw [if_pos h2]
      cases decode row <;> simp
    · rw [if_neg h2]
      simp
  · rw [if_neg h1]
    by_cases h3 : (goSplit r ':').length = 3
    · rw [if_pos h3]
      rw [if_pos h3] at h
      have hs : 0 ≤ goAtoi ((goSplit r ':').getD 2 "") := of_decide_eq_true h
      by_cases h2 : goAtoi ((goSplit r ':').getD 0 "") = (i : Int)
      · rw [if_pos h2]
        by_cases h4 : 1 < (goSplitStr row ((goSplit r ':').getD 1 "")).length
            ∧ goAtoi ((goSplit r ':').getD 2 "")
              < ((goSplitStr row ((goSplit r ':').getD 1 "")).length : Int)
        · rw [if_pos h4, if_neg (by omega)]
          cases decode ((goSplitStr row ((goSplit r ':').getD 1 "")).getD
            (goAtoi ((goSplit r ':').getD 2 "")).toNat "") <;> simp
        · rw [if_neg h4]
          simp
      · rw [if_neg h2]
        simp
    · rw [if_neg h3]
      simp

theorem isSome_ite (c : Prop) [Decidable c] {α : Type} (x y : α) :
    (if c then some x else some y).isSome = true := by
  by_cases h : c <;> simp [h]

theorem isSome_ite2 (c d : Prop) [Decidable c] [Decidable d] {α : Type} (x y z : α) :
    (if c then some x else if d then some y else some z).isSome = true := by
  by_cases h : c
  · simp [h]
  · rw [if_neg h]
    exact isSome_ite d y z

theorem applyFilter_safe (compile : String → Option (String → Bool)) (f : String)
    (i : Nat) (row : String) (inc : Bool) (h : filterRuleSafe compile f = true) :
    (applyFilter compile f i row inc).isSome = true := by
  unfold filterRuleSafe at h
  simp only [applyFilter]
  by_cases h1 : (goSplit f ':').length = 2
  · rw [if_pos h1]
    rw [if_pos h1] at h
    have hp : (goSplit f ':').getD 1 "" ≠ "" := of_decide_eq_true h
    by_cases h2 : goAtoi ((goSplit f ':').getD 0 "") = (i : Int)
    · rw [if_pos h2, if_neg hp]
      by_cases h5 : ((goSplit f ':').getD 1 "").front = '^'
      · rw [if_pos h5]
        exact isSome_ite _ _ _
      · rw [if_neg h5]
        rfl
    · rw [if_neg h2]
      rfl
  · rw [if_neg h1]
    by_cases h3 : (goSplit f ':').length = 3
    · rw [if_pos h3]
      rw [if_neg h1, if_pos h3] at h
      by_cases h2 : goAtoi ((goSplit f ':').getD 0 "") = (i : Int)
      · rw [if_pos h2]
        cases hcp : compile ((goSplit f ':').getD 2 "") with
        | none => rw [hcp] at h; simp at h
        | some re => exact isSome_ite2 _ _ _ _ _
      · rw [if_neg h2]
        rfl
    · rw [if_neg h3]
      rfl

theorem applyB64All_safe (decode : String → Option String) (i : Nat) :
    ∀ (rules : List String) (row : String), (∀ r ∈ rules, b64RuleSafe r = true) →
      (applyB64All decode rules i row).isSome = true := by
  intro rules
  induction rules with
  | nil => intro row _; rfl
  | cons r rs ih =>
    intro row hall
    obtain ⟨row2, h2⟩ := Option.isSome_iff_exists.mp
      (applyB64Rule_safe decode r i row (hall r (List.mem_cons_self r rs)))
    have hstep : applyB64All decode (r :: rs) i row = applyB64All decode rs i row2 := by
      simp [applyB64All, h2]
    rw [hstep]
    exact ih row2 (fun r' hm => hall r' (List.mem_cons_of_mem r hm))

theorem applyFilterAll_safe (compile : String → Option (String → Bool)) (i : Nat) :
    ∀ (rules : List String) (row : String) (inc : Bool),
      (∀ f ∈ rules, filterRuleSafe compile f = true) →
      (applyFilterAll compile rules i row inc).isSome = true := by
  intro rules
  induction rules with
  | nil => intro row inc _; rfl
  | cons f fs ih =>
    intro row inc hall
    obtain ⟨inc2, h2⟩ := Option.isSome_iff_exists.mp
      (applyFilter_safe compile f i row inc (hall f (List.mem_cons_self f fs)))
    have hstep : applyFilterAll compile (f :: fs) i row inc
        = applyFilterAll compile fs i row inc2 := by
      simp [applyFilterAll, h2]
    rw [hstep]
    exact ih row inc2 (fun f' hm => hall f' (List.mem_cons_of_mem f hm))

/-- C8 (amended): transform and filter processing never aborts the run
*provided* every three-segment `--decb64` rule carries a non-negative
segment index and every `--contains` rule carries a non-empty substring
pattern or a pattern its regexp engine compiles; outside these conditions
the program panics (`regexp.MustCompile` on a non-compiling pattern,
out-of-range indexing), terminating the run. -/
theorem row_processing_no_abort_when_rules_safe (decode : String → Option String)
    (compile : String → Option (String → Bool)) (b64dec conts : List String)
    (hb : ∀ r ∈ b64dec, b64RuleSafe r = true)
    (hf : ∀ f ∈ conts, filterRuleSafe compile f = true) :
    ∀ (maps : DyRecord) (schema : List String) (maxlen : Nat),
      (renderRow decode compile maps schema b64dec conts maxlen).isSome = true := by
  intro maps schema maxlen
  rw [renderRow]
  suffices hgen : ∀ (ks : List String) (i : Nat) (inc : Bool) (rows qrows : List String),
      (renderRowGo decode compile maps b64dec conts maxlen ks i inc rows qrows).isSome
        = true by
    exact hgen schema 0 true [] []
  intro ks
  induction ks with
  | nil => intro i inc rows qrows; rfl
  | cons k ks ih =>
    intro i inc rows qrows
    cases hlk : maps.lookup k with
    | none =>
      rw [renderRowGo_cons_missing decode compile maps b64dec conts maxlen k ks i inc
        rows qrows hlk]
      exact ih (i + 1) inc (rows ++ ["-"]) (qrows ++ ["-"])
    | some v =>
      obtain ⟨row, hrow⟩ := Option.isSome_iff_exists.mp
        (applyB64All_safe decode i b64dec v hb)
      obtain ⟨inc2, hinc2⟩ := Option.isSome_iff_exists.mp
        (applyFilterAll_safe compile i conts row inc hf)
      rw [renderRowGo_cons_present decode compile maps b64dec conts maxlen k ks i inc
        rows qrows v row inc2 hlk hrow hinc2]
      exact ih (i + 1) inc2 (rows ++ [row])
        (qrows ++ [quoteNormalize (truncateGo row maxlen)])

/-- Witness for `row_processing_no_abort_when_rules_safe` at a concrete
record, a safe base64 rule and a safe substring rule. -/
theorem row_processing_no_abort_witness :
    (∀ r ∈ ["0"], b64RuleSafe r = true)
    ∧ (∀ f ∈ ["0:foo"], filterRuleSafe rejectAllRegexEngine f = true)
    ∧ (renderRow noDecode rejectAllRegexEngine [("c", "x")] ["c"] ["0"] ["0:foo"] 4).isSome
        = true := by
  refine ⟨by decide, by decide, ?_⟩
  exact row_processing_no_abort_when_rules_safe noDecode rejectAllRegexEngine
    ["0"] ["0:foo"] (by decide) (by decide) [("c", "x")] ["c"] 4

/-- C8 counterexample, one concrete input per panic path of the cell
loop: a regex-mode rule whose pattern the regexp engine rejects (as
`regexp.Compile` rejects `"("`) panics via `regexp.MustCompile` at src
line 302; a substring rule with an empty pattern (`"0:"`) panics on the
`cc[1][0]` byte access at src line 288; and a segment decode rule with a
negative segment index (`"0:|:-1"`, which passes the `sidx < len(sr)`
guard at src line 271) panics on the `sr[sidx]` access at src line 272.
Each aborts the processing of a row with a present column-0 cell instead
of completing. -/
theorem rule_panic_paths_abort :
    renderRow noDecode rejectAllRegexEngine [("c", "x")] ["c"] [] ["0:regex:("] 5
      = none
    ∧ renderRow noDecode rejectAllRegexEngine [("c", "x")] ["c"] [] ["0:"] 5 = none
    ∧ renderRow noDecode rejectAllRegexEngine [("c", "a|b")] ["c"] ["0:|:-1"] [] 5
      = none := by
  exact ⟨rfl, rfl, rfl⟩


theorem lookup_append_left_none (k : String) :
    ∀ (l1 l2 : List (String × String)), l1.lookup k = none →
      (l1 ++ l2).lookup k = l2.lookup k := by
  intro l1
  induction l1 with
  | nil => intro l2 _; rfl
  | cons p rest ih =>
    intro l2 h
    obtain ⟨a, b⟩ := p
    rw [List.lookup_cons] at h
    rw [List.cons_append, List.lookup_cons]
    cases hk : (k == a) with
    | true =>
      rw [hk] at h
      simp at h
    | false =>
      simp only [hk] at h
      simp only [hk]
      exact ih l2 h

theorem lookup_overwrite (k v : String) :
    ∀ t : List (String × String), (t.lookup k).isSome = true →
      (t.map (fun p => if p.1 = k then (k, v) else p)).lookup k = some v := by
  intro t
  induction t with
  | nil => intro h; simp at h
  | cons p rest ih =>
    intro h
    obtain ⟨a, b⟩ := p
    rw [List.lookup_cons] at h
    cases hk : (k == a) with
    | true =>
      have hka : k = a := by simpa using hk
      simp only [List.map_cons]
      rw [if_pos (show (a, b).1 = k from hka.symm)]
      rw [List.lookup_cons]
      simp
    | false =>
      simp only [hk] at h
      have hak : ¬(a = k) := by
        intro he
        rw [he] at hk
        simp at hk
      simp only [List.map_cons]
      rw [if_neg (show ¬((a, b).1 = k) from hak)]
      rw [List.lookup_cons]
      simp only [hk]
      exact ih h

theorem lookup_none_not_mem_keys (k : String) :
    ∀ t : List (String × String), t.lookup k = none → k ∉ t.map Prod.fst := by
  intro t
  induction t with
  | nil => intro _ hm; simp at hm
  | cons p rest ih =>
    intro h hm
    obtain ⟨a, b⟩ := p
    rw [List.lookup_cons] at h
    cases hk : (k == a) with
    | true =>
      rw [hk] at h
      simp at h
    | false =>
      simp only [hk] at h
      rcases List.mem_cons.mp hm with he | hm2
      · rw [he] at hk
        simp at hk
      · exact ih h hm2

theorem map_fst_overwrite (k v : String) (t : List (String × String)) :
    (t.map (fun p => if p.1 = k then (k, v) else p)).map Prod.fst = t.map Prod.fst := by
  rw [List.map_map]
  apply List.map_congr_left
  intro p _
  by_cases hp : p.1 = k
  · simp [hp]
  · simp [hp]

theorem insertTodel_lookup (t : List (String × String)) (k v : String) :
    (insertTodel t k v).lookup k = some v := by
  unfold insertTodel
  cases hl : t.lookup k with
  | some w =>
    rw [if_pos (by simp : ((some w : Option String)).isSome = true)]
    exact lookup_overwrite k v t (by rw [hl]; rfl)
  | none =>
    rw [if_neg (by simp : ¬((none : Option String)).isSome = true)]
    rw [lookup_append_left_none k t [(k, v)] hl]
    rw [List.lookup_cons]
    simp

theorem insertTodel_keys_nodup (k v : String) (t : List (String × String))
    (h : (t.map Prod.fst).Nodup) :
    ((insertTodel t k v).map Prod.fst).Nodup := by
  unfold insertTodel
  cases hl : t.lookup k with
  | some w =>
    rw [if_pos (by simp : ((some w : Option String)).isSome = true)]
    rw [map_fst_overwrite]
    exact h
  | none =>
    rw [if_neg (by simp : ¬((none : Option String)).isSome = true)]
    rw [List.map_append]
    simp only [List.map_cons, List.map_nil]
    rw [List.nodup_append]
    refine ⟨h, List.nodup_singleton k, ?_⟩
    intro a ha hb
    have hak : a = k := by simpa using hb
    rw [hak] at ha
    exact lookup_none_not_mem_keys k t hl ha

theorem processRows_cons_incl (decode : String → Option String)
    (compile : String → Option (String → Bool)) (schema b64dec conts : List String)
    (maxlen : Nat) (del : Bool) (pklbl sklbl : String) (maps : DyRecord)
    (rest : List DyRecord) (st : RunOut) (rows qrows : List String)
    (hr : renderRow decode compile maps schema b64dec conts maxlen
      = some (rows, qrows, true)) :
    processRows decode compile schema b64dec conts maxlen del pklbl sklbl
        (maps :: rest) st
      = processRows decode compile schema b64dec conts maxlen del pklbl sklbl rest
          ⟨st.tableRows ++ [rows], st.csvRows ++ [qrows],
            if del then
              match maps.lookup sklbl with
              | some skv => insertTodel st.todel skv (fmtVal (maps.lookup pklbl))
              | none => st.todel
            else st.todel⟩ := by
  conv_lhs => rw [processRows]
  rw [hr]
  rfl

theorem processRows_cons_none (decode : String → Option String)
    (compile : String → Option (String → Bool)) (schema b64dec conts : List String)
    (maxlen : Nat) (del : Bool) (pklbl sklbl : String) (maps : DyRecord)
    (rest : List DyRecord) (st : RunOut)
    (hr : renderRow decode compile maps schema b64dec conts maxlen = none) :
    processRows decode compile schema b64dec conts maxlen del pklbl sklbl
        (maps :: rest) st = none := by
  conv_lhs => rw [processRows]
  rw [hr]

theorem todel_step_nodup (del : Bool) (maps : DyRecord) (pklbl sklbl : String)
    (st : RunOut) (hnd : (st.todel.map Prod.fst).Nodup) :
    (((if del then
        match maps.lookup sklbl with
        | some skv => insertTodel st.todel skv (fmtVal (maps.lookup pklbl))
        | none => st.todel
      else st.todel) : List (String × String)).map Prod.fst).Nodup := by
  by_cases hdel : del = true
  · rw [if_pos hdel]
    cases hsk : maps.lookup sklbl with
    | none => exact hnd
    | some skv =>
      exact insertTodel_keys_nodup skv (fmtVal (maps.lookup pklbl)) st.todel hnd
  · rw [if_neg hdel]
    exact hnd

theorem processRows_todel_nodup (decode : String → Option String)
    (compile : String → Option (String → Bool)) (schema b64dec conts : List String)
    (maxlen : Nat) (del : Bool) (pklbl sklbl : String) :
    ∀ (m : List DyRecord) (st out : RunOut), (st.todel.map Prod.fst).Nodup →
      processRows decode compile schema b64dec conts maxlen del pklbl sklbl m st
        = some out →
      (out.todel.map Prod.fst).Nodup := by
  intro m
  induction m with
  | nil =>
    intro st out hnd h
    have hso : st = out := Option.some.inj h
    rw [← hso]
    exact hnd
  | cons maps rest ih =>
    intro st out hnd h
    cases hr : renderRow decode compile maps schema b64dec conts maxlen with
    | none =>
      rw [processRows_cons_none decode compile schema b64dec conts maxlen del
        pklbl sklbl maps rest st hr] at h
      simp at h
    | some trip =>
      obtain ⟨rows, qrows, inc⟩ := trip
      cases inc with
      | false =>
        rw [processRows_cons_skip decode compile schema b64dec conts maxlen del
          pklbl sklbl maps rest st rows qrows hr] at h
        exact ih st out hnd h
      | true =>
        rw [processRows_cons_incl decode compile schema b64dec conts maxlen del
          pklbl sklbl maps rest st rows qrows hr] at h
        exact ih _ out (todel_step_nodup del maps pklbl sklbl st hnd) h

/-- C9: the key labels used by the deletion correlator are taken from the
table's `DescribeTable` key schema (overriding whatever the user-supplied
flags contained); `todel` insertion overwrites on a sort-key collision;
and after processing any record list the `todel` mapping has pairwise
distinct sort-key values, with exactly one delete issued per entry — so
no two deletes ever share a sort-key value. -/
theorem deletion_correlator_dedup :
    (∀ (p s u1 u2 : String), resolveKeyLabels [(p, "HASH"), (s, "RANGE")] u1 u2 = (p, s))
    ∧ (∀ (t : List (String × String)) (k v : String),
        (insertTodel t k v).lookup k = some v)
    ∧ (∀ (decode : String → Option String) (compile : String → Option (String → Bool))
        (schema b64dec conts : List String) (maxlen : Nat) (del : Bool)
        (pklbl sklbl table : String) (m : List DyRecord) (out : RunOut),
        processRows decode compile schema b64dec conts maxlen del pklbl sklbl m
            ⟨[], [], []⟩ = some out →
        (out.todel.map Prod.fst).Nodup
        ∧ issuedDeletes table pklbl sklbl out.todel
            = out.todel.map (mkDeleteReq table pklbl sklbl)
        ∧ (issuedDeletes table pklbl sklbl out.todel).length = out.todel.length) := by
  refine ⟨?_, ?_, ?_⟩
  · intro p s u1 u2
    rfl
  · intro t k v
    exact insertTodel_lookup t k v
  · intro decode compile schema b64dec conts maxlen del pklbl sklbl table m out h
    refine ⟨?_, rfl, ?_⟩
    · exact processRows_todel_nodup decode compile schema b64dec conts maxlen del
        pklbl sklbl m ⟨[], [], []⟩ out (by simp) h
    · simp [issuedDeletes]

/-- Witness for `deletion_correlator_dedup`: two records sharing sort-key
value `"X"` produce a single `todel` entry (last write wins) and a single
delete. -/
theorem deletion_correlator_dedup_witness :
    resolveKeyLabels [("id", "HASH"), ("sk", "RANGE")] "u" "w" = ("id", "sk")
    ∧ (insertTodel [("X", "A")] "X" "B").lookup "X" = some "B"
    ∧ ((RunOut.mk [["A", "X"], ["B", "X"]] [["A", "X"], ["B", "X"]]
          [("X", "B")]).todel.map Prod.fst).Nodup
    ∧ issuedDeletes "T" "id" "sk" [("X", "B")]
        = [("X", "B")].map (mkDeleteReq "T" "id" "sk")
    ∧ (issuedDeletes "T" "id" "sk" [("X", "B")]).length = [("X", "B")].length := by
  have h3 := deletion_correlator_dedup.2.2 noDecode rejectAllRegexEngine
    ["id", "sk"] [] [] 10 true "id" "sk" "T"
    [[("id", "A"), ("sk", "X")], [("id", "B"), ("sk", "X")]]
    ⟨[["A", "X"], ["B", "X"]], [["A", "X"], ["B", "X"]], [("X", "B")]⟩ rfl
  exact ⟨deletion_correlator_dedup.1 "id" "sk" "u" "w",
    deletion_correlator_dedup.2.1 [("X", "A")] "X" "B",
    h3.1, h3.2.1, h3.2.2⟩
